import Mathlib

/-!
Verification of the binary restart-file codec in `process_restart.py`.

The Python source is shallowly embedded over `List Nat` byte streams:

* Python `bytes` values become `List Nat` (each entry a byte value);
* Python `str` values become `List Nat` of Unicode code points (`PyStr`);
* 64-bit floats are carried as their raw IEEE-754 bit patterns (`Nat`),
  which is exactly how the codec treats them (`struct.pack`/`unpack` of
  `d` only moves the 8 bytes); numeric float equality (`!=` in the
  grouping loop) is recovered from the pattern by `floatEqB`;
* `struct.pack`/`unpack` of `q` is the little-endian signed 64-bit codec
  (the host order of the machine the script targets);
* a Python file object open for reading becomes the list of not-yet-read
  bytes, with `readN` modelling `file.read(n)` (a negative `n` reads to
  the end of the file, as in Python);
* exceptions become error values (`DecodeErr`), with constructors named
  after the documented error kinds: a `struct.error` on the very first
  8-byte header read is `unexpectedEof`, a `struct.error` from a short
  name / field / pair buffer is `truncatedRecord`, the `struct.error`
  raised by the `"{n}s"` format when `n` is negative is
  `badLengthFormat`, `UnicodeDecodeError` is `encodingError`, and the
  `IndexError`/`ValueError` from id parsing is `materialIdParseError`.
-/

/-- Python strings are sequences of Unicode code points. -/
abbrev PyStr := List Nat

/-- Little-endian bytes of the low 64 bits of `n`
(`struct.pack` of a 64-bit value on a little-endian host). -/
def natTo8LE (n : Nat) : List Nat :=
  [n % 256, n / 256 % 256, n / 65536 % 256, n / 16777216 % 256,
   n / 4294967296 % 256, n / 1099511627776 % 256,
   n / 281474976710656 % 256, n / 72057594037927936 % 256]

/-- Little-endian value of a byte list. -/
def bytesToNatLE : List Nat → Nat
  | [] => 0
  | b :: t => b + 256 * bytesToNatLE t

/-- Signed two's-complement reading of an 8-byte little-endian buffer
(`struct.unpack` of the `q` format). -/
def decodeInt64 (bs : List Nat) : Int :=
  let n := bytesToNatLE bs
  if n < 9223372036854775808 then (n : Int) else (n : Int) - 18446744073709551616

/-- The bytes emitted by `struct.pack` of the `q` format: defined exactly on
the signed 64-bit range, as `struct.pack` raises outside it. (The range
check is phrased on the `Int` constructors so that it reduces without
evaluating huge-literal `Int` comparisons: `.ofNat n` is in range iff
`n < 2^63`, `.negSucc n` — the value `-(n+1)` — iff `n < 2^63`, and the low
64 bits of `-(n+1)` are `2^64 - 1 - n`.) -/
def encodeInt64 : Int → Option (List Nat)
  | .ofNat n => if n < 9223372036854775808 then some (natTo8LE n) else none
  | .negSucc n =>
    if n < 9223372036854775808 then some (natTo8LE (18446744073709551615 - n)) else none

/-- Model of `file.read(n)`: a negative count reads to the end of the file,
otherwise at most `n` bytes are returned; the second component is the rest
of the file. -/
def readN (k : Int) (s : List Nat) : List Nat × List Nat :=
  if k < 0 then (s, []) else (s.take k.toNat, s.drop k.toNat)

/-- NaN test on a raw IEEE-754 binary64 bit pattern. -/
def isNaN64 (p : Nat) : Bool :=
  decide ((p / 4503599627370496) % 2048 = 2047) && decide (p % 4503599627370496 ≠ 0)

/-- Zero test (either signed zero) on a raw binary64 bit pattern. -/
def isZero64 (p : Nat) : Bool := decide (p % 9223372036854775808 = 0)

/-- IEEE-754 numeric equality on bit patterns: NaN equals nothing, the two
zeros are equal, and no other two distinct binary64 patterns denote equal
values. This is the `==`/`!=` the grouping loop applies to `bu_global`. -/
def floatEqB (a b : Nat) : Bool :=
  if isNaN64 a || isNaN64 b then false
  else decide (a = b) || (isZero64 a && isZero64 b)

/-- Finite (not NaN, not an infinity) bit pattern in 64-bit range. -/
def finite64 (p : Nat) : Bool :=
  decide (p < 18446744073709551616) && decide ((p / 4503599627370496) % 2048 ≠ 2047)

theorem bytesToNat_natTo8LE (n : Nat) :
    bytesToNatLE (natTo8LE n) = n % 18446744073709551616 := by
  simp [natTo8LE, bytesToNatLE]
  omega

theorem natTo8LE_length (n : Nat) : (natTo8LE n).length = 8 := rfl

theorem natTo8LE_ne_nil (n : Nat) : natTo8LE n ≠ [] := by simp [natTo8LE]

theorem decodeInt64_natTo8LE (n : Nat) (h : n < 9223372036854775808) :
    decodeInt64 (natTo8LE n) = (n : Int) := by
  unfold decodeInt64
  rw [bytesToNat_natTo8LE]
  simp only [Nat.mod_eq_of_lt (by omega : n < 18446744073709551616)]
  rw [if_pos h]

theorem decodeInt64_encodeInt64 (z : Int) (bs : List Nat)
    (h : encodeInt64 z = some bs) : decodeInt64 bs = z := by
  cases z with
  | ofNat n =>
    simp only [encodeInt64] at h
    split at h
    · cases h
      unfold decodeInt64
      simp only [bytesToNat_natTo8LE]
      split <;> simp only [Int.ofNat_eq_natCast] <;> omega
    · exact absurd h (by simp)
  | negSucc n =>
    simp only [encodeInt64] at h
    split at h
    · cases h
      unfold decodeInt64
      simp only [bytesToNat_natTo8LE]
      split <;> simp only [Int.negSucc_eq] <;> omega
    · exact absurd h (by simp)

theorem encodeInt64_length (z : Int) (bs : List Nat)
    (h : encodeInt64 z = some bs) : bs.length = 8 := by
  cases z with
  | ofNat n =>
    simp only [encodeInt64] at h
    split at h
    · cases h; exact natTo8LE_length _
    · exact absurd h (by simp)
  | negSucc n =>
    simp only [encodeInt64] at h
    split at h
    · cases h; exact natTo8LE_length _
    · exact absurd h (by simp)

theorem encodeInt64_of_nat (n : Nat) (h : n < 9223372036854775808) :
    encodeInt64 (n : Int) = some (natTo8LE n) := by
  show encodeInt64 (Int.ofNat n) = some (natTo8LE n)
  simp only [encodeInt64]
  rw [if_pos h]

example : decodeInt64 (natTo8LE 5) = 5 := by decide
example : decodeInt64 (natTo8LE 18446744073709551615) = -1 := by decide
example : readN 8 [1,2,3] = ([1,2,3], []) := by decide
example : readN (-1) [1,2,3] = ([1,2,3], []) := by decide

/-- UTF-8 encoding of one code point, as Python `str.encode` produces it:
surrogates (the `0xD800`–`0xDFFF` range) and values above `0x10FFFF` are
rejected, everything else gets the standard 1–4 byte form. -/
def utf8EncChar (v : Nat) : Option (List Nat) :=
  if v < 128 then some [v]
  else if v < 2048 then some [192 + v / 64, 128 + v % 64]
  else if v < 65536 then
    if 55296 ≤ v ∧ v < 57344 then none
    else some [224 + v / 4096, 128 + v / 64 % 64, 128 + v % 64]
  else if v < 1114112 then
    some [240 + v / 262144, 128 + v / 4096 % 64, 128 + v / 64 % 64, 128 + v % 64]
  else none

/-- UTF-8 encoding of a whole string (`str.encode('UTF-8')`). -/
def utf8Enc : PyStr → Option (List Nat)
  | [] => some []
  | v :: t =>
    match utf8EncChar v, utf8Enc t with
    | some b, some bt => some (b ++ bt)
    | _, _ => none

/-- One step of strict UTF-8 decoding: from a non-empty byte list, the code
point of the leading 1–4 byte sequence and the remaining bytes. Rejects bad
lead or continuation bytes, overlong forms, surrogates and values past
`0x10FFFF`, exactly as Python's strict decoder does. -/
def utf8DecodeOne : List Nat → Option (Nat × List Nat)
  | [] => none
  | b0 :: r =>
    if b0 < 128 then some (b0, r)
    else if b0 < 194 then none
    else if b0 < 224 then
      let b1 := r.headD 256
      if 128 ≤ b1 ∧ b1 < 192 then
        some ((b0 - 192) * 64 + (b1 - 128), r.drop 1)
      else none
    else if b0 < 240 then
      let b1 := r.headD 256
      let b2 := (r.drop 1).headD 256
      if (128 ≤ b1 ∧ b1 < 192) ∧ (128 ≤ b2 ∧ b2 < 192) ∧
          ¬(b0 = 224 ∧ b1 < 160) ∧ ¬(b0 = 237 ∧ 160 ≤ b1) then
        some ((b0 - 224) * 4096 + (b1 - 128) * 64 + (b2 - 128), r.drop 2)
      else none
    else if b0 < 245 then
      let b1 := r.headD 256
      let b2 := (r.drop 1).headD 256
      let b3 := (r.drop 2).headD 256
      if (128 ≤ b1 ∧ b1 < 192) ∧ (128 ≤ b2 ∧ b2 < 192) ∧ (128 ≤ b3 ∧ b3 < 192) ∧
          ¬(b0 = 240 ∧ b1 < 144) ∧ ¬(b0 = 244 ∧ 144 ≤ b1) then
        some ((b0 - 240) * 262144 + (b1 - 128) * 4096 + (b2 - 128) * 64 + (b3 - 128), r.drop 3)
      else none
    else none

/-- Bounded driver for UTF-8 decoding. Every step consumes at least one
byte, so fuel equal to the byte count always suffices; the fuel-exhausted
branch is unreachable whenever `fuel ≥ length` (see `utf8DecGo_congr`). -/
def utf8DecGo : Nat → List Nat → Option PyStr
  | _, [] => some []
  | 0, _ :: _ => none
  | f + 1, b0 :: r =>
    match utf8DecodeOne (b0 :: r) with
    | none => none
    | some (v, rest) => (utf8DecGo f rest).map (v :: ·)

/-- Strict UTF-8 decoding of a whole byte string (`bytes.decode('UTF-8')`). -/
def utf8Dec (s : List Nat) : Option PyStr := utf8DecGo s.length s

set_option maxRecDepth 4000 in
theorem utf8DecodeOne_shrinks (s : List Nat) (v : Nat) (rest : List Nat)
    (h : utf8DecodeOne s = some (v, rest)) : rest.length < s.length := by
  unfold utf8DecodeOne at h
  rcases s with _ | ⟨b0, r⟩
  · exact absurd h (by simp)
  · simp only [List.length_cons]
    dsimp only at h
    split_ifs at h
    all_goals cases h
    all_goals simp [List.length_drop]
    all_goals omega

theorem utf8DecGo_irrel (f : Nat) (g : Nat) (s : List Nat)
    (hf : s.length ≤ f) (hg : s.length ≤ g) : utf8DecGo f s = utf8DecGo g s := by
  induction f generalizing g s with
  | zero =>
    rcases s with _ | ⟨b, r⟩
    · cases g <;> rfl
    · simp at hf
  | succ f ih =>
    rcases s with _ | ⟨b, r⟩
    · cases g <;> rfl
    · rcases g with _ | g
      · simp at hg
      · unfold utf8DecGo
        cases hd : utf8DecodeOne (b :: r) with
        | none => rfl
        | some p =>
          obtain ⟨v, rest⟩ := p
          have hlt := utf8DecodeOne_shrinks _ _ _ hd
          simp only [List.length_cons] at hlt hf hg
          simp only
          rw [ih g rest (by omega) (by omega)]

theorem utf8DecGo_congr (f : Nat) (s : List Nat) (hf : s.length ≤ f) :
    utf8DecGo f s = utf8Dec s :=
  utf8DecGo_irrel f s.length s hf le_rfl

/-- Full decoding unfolds one step at a time. -/
theorem utf8Dec_step (s : List Nat) :
    utf8Dec s = match utf8DecodeOne s with
      | none => if s = [] then some [] else none
      | some (v, rest) => (utf8Dec rest).map (v :: ·) := by
  rcases s with _ | ⟨b, r⟩
  · rfl
  · show utf8DecGo (r.length + 1) (b :: r) = _
    unfold utf8DecGo
    cases hd : utf8DecodeOne (b :: r) with
    | none => simp
    | some p =>
      obtain ⟨v, rest⟩ := p
      have hlt := utf8DecodeOne_shrinks _ _ _ hd
      simp only [List.length_cons] at hlt
      simp only
      rw [utf8DecGo_congr r.length rest (by omega)]

example : utf8Enc [102, 122, 55] = some [102, 122, 55] := by decide
example : utf8Enc [233] = some [195, 169] := by decide
example : utf8Dec [195, 169] = some [233] := by decide
example : utf8Dec [195] = none := by decide
example : utf8Dec [237, 160, 128] = none := by decide
example : utf8Enc [8364] = some [226, 130, 172] := by decide
example : utf8Dec [226, 130, 172] = some [8364] := by decide
example : utf8Enc [128512] = some [240, 159, 152, 128] := by decide
example : utf8Dec [240, 159, 152, 128] = some [128512] := by decide

theorem utf8DecodeOne_encChar (v : Nat) (b r : List Nat) (h : utf8EncChar v = some b) :
    utf8DecodeOne (b ++ r) = some (v, r) := by
  unfold utf8EncChar at h
  by_cases h1 : v < 128
  · rw [if_pos h1] at h
    cases h
    show utf8DecodeOne (v :: r) = _
    simp only [utf8DecodeOne]
    rw [if_pos h1]
  · rw [if_neg h1] at h
    by_cases h2 : v < 2048
    · rw [if_pos h2] at h
      cases h
      show utf8DecodeOne ((192 + v / 64) :: (128 + v % 64) :: r) = _
      simp only [utf8DecodeOne]
      dsimp only [List.headD_cons, List.drop_succ_cons, List.drop_zero]
      rw [if_neg (by omega), if_neg (by omega), if_pos (by omega), if_pos (by omega)]
      simp only [Option.some.injEq, Prod.mk.injEq]
      refine ⟨by omega, by simp⟩
    · rw [if_neg h2] at h
      by_cases h3 : v < 65536
      · rw [if_pos h3] at h
        by_cases hs : 55296 ≤ v ∧ v < 57344
        · rw [if_pos hs] at h; exact absurd h (by simp)
        · rw [if_neg hs] at h
          cases h
          show utf8DecodeOne
            ((224 + v / 4096) :: (128 + v / 64 % 64) :: (128 + v % 64) :: r) = _
          simp only [utf8DecodeOne]
          dsimp only [List.headD_cons, List.drop_succ_cons, List.drop_zero]
          rw [if_neg (by omega), if_neg (by omega), if_neg (by omega), if_pos (by omega),
            if_pos (by
              refine ⟨⟨by omega, by omega⟩, ⟨by omega, by omega⟩, ?l, ?r⟩
              case l => rintro ⟨hb, hc⟩; omega
              case r => rintro ⟨hb, hc⟩; omega)]
          simp only [Option.some.injEq, Prod.mk.injEq]
          refine ⟨by omega, by simp⟩
      · rw [if_neg h3] at h
        by_cases h4 : v < 1114112
        · rw [if_pos h4] at h
          cases h
          show utf8DecodeOne
            ((240 + v / 262144) :: (128 + v / 4096 % 64) ::
              (128 + v / 64 % 64) :: (128 + v % 64) :: r) = _
          simp only [utf8DecodeOne]
          dsimp only [List.headD_cons, List.drop_succ_cons, List.drop_zero]
          rw [if_neg (by omega), if_neg (by omega), if_neg (by omega), if_neg (by omega),
            if_pos (by omega),
            if_pos (by
              refine ⟨⟨by omega, by omega⟩, ⟨by omega, by omega⟩, ⟨by omega, by omega⟩, ?l, ?r⟩
              case l => rintro ⟨hb, hc⟩; omega
              case r => rintro ⟨hb, hc⟩; omega)]
          simp only [Option.some.injEq, Prod.mk.injEq]
          refine ⟨by omega, by simp⟩
        · rw [if_neg h4] at h; exact absurd h (by simp)

theorem utf8Dec_encChar (v : Nat) (b r : List Nat) (h : utf8EncChar v = some b) :
    utf8Dec (b ++ r) = (utf8Dec r).map (v :: ·) := by
  rw [utf8Dec_step, utf8DecodeOne_encChar v b r h]

theorem utf8Dec_enc_append (s : PyStr) (bs r : List Nat) (h : utf8Enc s = some bs) :
    utf8Dec (bs ++ r) = (utf8Dec r).map (s ++ ·) := by
  induction s generalizing bs with
  | nil =>
    cases h
    simp
  | cons v t ih =>
    unfold utf8Enc at h
    cases hc : utf8EncChar v with
    | none => rw [hc] at h; exact absurd h (by simp)
    | some b =>
      cases ht : utf8Enc t with
      | none => rw [hc, ht] at h; exact absurd h (by simp)
      | some bt =>
        rw [hc, ht] at h
        cases h
        rw [List.append_assoc, utf8Dec_encChar v b (bt ++ r) hc, ih bt ht]
        cases utf8Dec r <;> simp

theorem utf8Dec_enc (s : PyStr) (bs : List Nat) (h : utf8Enc s = some bs) :
    utf8Dec bs = some s := by
  have h2 := utf8Dec_enc_append s bs [] h
  rw [List.append_nil] at h2
  rw [h2]
  show Option.map _ (some []) = _
  simp

/-- ASCII decimal digit test (Python `int()` also accepts other Unicode
decimal digits, which never occur in this format; they are not modelled). -/
def isPyDigit (c : Nat) : Bool := decide (48 ≤ c) && decide (c ≤ 57)

/-- ASCII whitespace as Python `int()` strips it: tab through carriage
return (9–13), the information separators FS/GS/RS/US (28–31), and space —
CPython's `_Py_ascii_whitespace` table. (Python also strips non-ASCII
Unicode whitespace, outside the ASCII fragment modelled here.) -/
def isPySpace (c : Nat) : Bool :=
  decide (c = 32) || (decide (9 ≤ c) && decide (c ≤ 13)) ||
  (decide (28 ≤ c) && decide (c ≤ 31))

/-- Drop leading whitespace. -/
def dropLeadingWs : PyStr → PyStr
  | [] => []
  | c :: t => if isPySpace c then dropLeadingWs t else c :: t

/-- Digit-run parser after the first digit: digits with single underscores
allowed only between digits, exactly Python 3's integer-literal rule. -/
def pyDigitsGo (acc : Nat) : PyStr → Option Nat
  | [] => some acc
  | 95 :: c :: t => if isPyDigit c then pyDigitsGo (acc * 10 + (c - 48)) t else none
  | c :: t => if isPyDigit c then pyDigitsGo (acc * 10 + (c - 48)) t else none

/-- A non-empty digit run (underscores only between digits). -/
def pyParseDigits : PyStr → Option Nat
  | [] => none
  | c :: t => if isPyDigit c then pyDigitsGo (c - 48) t else none

/-- Model of Python `int(s)` for base-10 strings: strip whitespace,
optional sign, then digits with single underscores between digits. The
model is exact on ASCII strings; Python additionally accepts non-ASCII
Unicode decimal digits (`int` of the Arabic-Indic five is 5) and Unicode
whitespace, which are not modelled — theorems that rely on a parse
*failure* therefore restrict themselves to ASCII names. -/
def pyIntParse (s : PyStr) : Option Int :=
  let t := (dropLeadingWs (dropLeadingWs s.reverse).reverse)
  match t with
  | 43 :: rest => (pyParseDigits rest).map (fun n => (n : Int))
  | 45 :: rest => (pyParseDigits rest).map (fun n => -(n : Int))
  | rest => (pyParseDigits rest).map (fun n => (n : Int))

/-- Decimal digits of a natural number, most significant first; the first
argument is recursion fuel (the number itself always suffices). -/
def natDigits : Nat → Nat → PyStr
  | 0, n => [48 + n % 10]
  | f + 1, n => if n < 10 then [48 + n] else natDigits f (n / 10) ++ [48 + n % 10]

/-- Model of Python `str(z)` for an integer `z`. -/
def pyStrOfInt (z : Int) : PyStr :=
  if z < 0 then 45 :: natDigits z.natAbs z.natAbs else natDigits z.toNat z.toNat

example : pyIntParse [49, 50, 51] = some 123 := by decide
example : pyIntParse [45, 55] = some (-7) := by decide
example : pyIntParse [43, 55] = some 7 := by decide
example : pyIntParse [48, 48, 55] = some 7 := by decide
example : pyIntParse [49, 95, 48] = some 10 := by decide
example : pyIntParse [49, 95, 95, 48] = none := by decide
example : pyIntParse [95, 49] = none := by decide
example : pyIntParse [49, 95] = none := by decide
example : pyIntParse [32, 49, 50, 10] = some 12 := by decide
example : pyIntParse [28, 53, 31] = some 5 := by decide
example : pyIntParse [] = none := by decide
example : pyIntParse [45] = none := by decide
example : pyIntParse [49, 102, 122, 50] = none := by decide
example : pyStrOfInt 922350 = [57, 50, 50, 51, 53, 48] := by decide
example : pyStrOfInt (-5) = [45, 53] := by decide
example : pyStrOfInt 0 = [48] := by decide

/-- One step of Python `str.split(sep)` for a non-empty separator: scan left
to right, breaking at each non-overlapping occurrence. The first argument is
recursion fuel (the string length plus one always suffices since every step
consumes at least one character). -/
def pySplitGo (sep : List Nat) : Nat → List Nat → List Nat → List (List Nat)
  | 0, cur, s => [cur.reverse ++ s]
  | _ + 1, cur, [] => [cur.reverse]
  | f + 1, cur, c :: rest =>
    if sep.isPrefixOf (c :: rest) then
      cur.reverse :: pySplitGo sep f [] (rest.drop (sep.length - 1))
    else
      pySplitGo sep f (c :: cur) rest

/-- Model of Python `s.split(sep)` for non-empty `sep` (the only use in the
source is `prefix + 'z'`, never empty). -/
def pySplit (s sep : PyStr) : List PyStr := pySplitGo sep (s.length + 1) [] s

example : pySplit [102, 122, 49, 102, 122, 50] [102, 122] = [[], [49], [50]] := by decide
example : pySplit [102, 111, 111] [102, 122] = [[102, 111, 111]] := by decide
example : pySplit [97, 97, 97] [97, 97] = [[], [97]] := by decide
example : pySplit [102, 122] [102, 122] = [[], []] := by decide

/-- Python `dict` assignment on an association list: an existing key keeps
its position and gets the new value, a new key is appended. -/
def dictInsert {β : Type} : List (PyStr × β) → PyStr → β → List (PyStr × β)
  | [], k, v => [(k, v)]
  | (k1, v1) :: t, k, v =>
    if k1 = k then (k1, v) :: t else (k1, v1) :: dictInsert t k v

theorem dictInsert_notMem {β : Type} (l : List (PyStr × β)) (k : PyStr) (v : β)
    (h : k ∉ l.map Prod.fst) : dictInsert l k v = l ++ [(k, v)] := by
  induction l with
  | nil => rfl
  | cons kv t ih =>
    obtain ⟨k1, v1⟩ := kv
    simp only [List.map_cons, List.mem_cons] at h
    push_neg at h
    unfold dictInsert
    rw [if_neg (fun he => h.1 he.symm), ih h.2]
    simp

/-- One decoded material block. Fields mirror the attributes set by
`Material.read` in the source; `id` is `none` exactly when the attribute is
never assigned (the parent case). Float-valued attributes hold the raw
binary64 bit pattern. The `file_name` attribute of the source is bookkeeping
about the file object, not part of the record, and is omitted. -/
structure Material where
  name : PyStr
  parent : Bool
  id : Option Int
  bu_global : Nat
  bu_days : Nat
  nnuc : Int
  adens : Nat
  mdens : Nat
  bu : Nat
  nuclides : List (PyStr × Nat)
deriving DecidableEq, Repr

/-- Decode failures, named after the documented error kinds (each one is a
`struct.error` / `UnicodeDecodeError` / `IndexError` / `ValueError` raised
by the corresponding line of `Material.read`). -/
inductive DecodeErr where
  | unexpectedEof
  | badLengthFormat
  | truncatedRecord
  | encodingError
  | materialIdParseError
deriving DecidableEq, Repr

/-- Result of one `Material.read` call: end of file (`read` returned
`False`), a decoded material plus the unread rest of the file, or a raised
exception. -/
inductive ReadResult where
  | eof
  | ok (m : Material) (rest : List Nat)
  | err (e : DecodeErr)
deriving DecidableEq, Repr

/-- Role determination from the decoded name (source lines 29–33): a name
equal to the prefix is the parent; otherwise the id is
`int(name.split(prefix + 'z')[1])`, and a missing separator (`IndexError`)
or unparsable segment (`ValueError`) is a failure. Code point 122 is `'z'`. -/
def parseRole (pfx name : PyStr) : Option (Bool × Option Int) :=
  if name = pfx then some (true, none)
  else
    match (pySplit name (pfx ++ [122])).get? 1 with
    | none => none
    | some seg =>
      match pyIntParse seg with
      | none => none
      | some k => some (false, some k)

/-- `struct.unpack("d", file.read(8))`: fails unless exactly 8 bytes come
back, otherwise the raw bit pattern and the rest of the stream. -/
def readF64 (s : List Nat) : Option (Nat × List Nat) :=
  let p := readN 8 s
  if p.1.length = 8 then some (bytesToNatLE p.1, p.2) else none

/-- `struct.unpack("q", file.read(8))`: fails unless exactly 8 bytes come
back, otherwise the signed value and the rest of the stream. -/
def readI64 (s : List Nat) : Option (Int × List Nat) :=
  let p := readN 8 s
  if p.1.length = 8 then some (decodeInt64 p.1, p.2) else none

/-- The nuclide loop of `Material.read` (source lines 44–48): `count` times,
unpack a 16-byte `qd` pair and assign `nuclides[str(ZAI)] = adens`; any
short read raises (`truncatedRecord`). -/
def readPairs : Nat → List Nat → List (PyStr × Nat) → Option (List (PyStr × Nat) × List Nat)
  | 0, s, acc => some (acc, s)
  | k + 1, s, acc =>
    let p := readN 16 s
    if p.1.length = 16 then
      readPairs k p.2
        (dictInsert acc (pyStrOfInt (decodeInt64 (p.1.take 8))) (bytesToNatLE (p.1.drop 8)))
    else none

/-- The six fixed-order scalar reads of `Material.read` (source lines
36–41): `bu_global`, `bu_days`, `nnuc`, `adens`, `mdens`, `bu`; any short
read fails. -/
def readScalars (s : List Nat) : Option ((Nat × Nat × Int × Nat × Nat × Nat) × List Nat) :=
  match readF64 s with
  | none => none
  | some (g, s1) =>
  match readF64 s1 with
  | none => none
  | some (dys, s2) =>
  match readI64 s2 with
  | none => none
  | some (nn, s3) =>
  match readF64 s3 with
  | none => none
  | some (ad, s4) =>
  match readF64 s4 with
  | none => none
  | some (md, s5) =>
  match readF64 s5 with
  | none => none
  | some (lb, s6) => some ((g, dys, nn, ad, md, lb), s6)

/-- `Material.read(file, prefix)` (source lines 18–49) over the unread bytes
of the file. Returns `False` (here `.eof`) when zero bytes are available,
otherwise decodes the length-prefixed name, determines the role, reads the
six fixed fields and the nuclide pairs. A negative name length builds the
`struct` format `"{n}s"` with a negative count, which `struct.unpack`
rejects (`badLengthFormat`) — after `file.read(n)` already consumed the
rest of the file, exactly as the Python argument evaluation order does. -/
def Material.read (pfx : PyStr) (s : List Nat) : ReadResult :=
  let hdr := readN 8 s
  if hdr.1 = [] then .eof
  else if hdr.1.length ≠ 8 then .err .unexpectedEof
  else
    let n : Int := decodeInt64 hdr.1
    let nm := readN n hdr.2
    if n < 0 then .err .badLengthFormat
    else if nm.1.length ≠ n.toNat then .err .truncatedRecord
    else
      match utf8Dec nm.1 with
      | none => .err .encodingError
      | some name =>
        match parseRole pfx name with
        | none => .err .materialIdParseError
        | some pid =>
          match readScalars nm.2 with
          | none => .err .truncatedRecord
          | some ((g, dys, nn, ad, md, lb), s8) =>
            match readPairs nn.toNat s8 [] with
            | none => .err .truncatedRecord
            | some (nucs, s9) =>
              .ok ⟨name, pid.1, pid.2, g, dys, nn, ad, md, lb, nucs⟩ s9

/-- `struct.pack("{n}s", bytes)`: truncate or zero-pad the payload to
exactly `n` bytes (Python's `s` format never fails on length mismatch). -/
def packName (n : Nat) (bs : List Nat) : List Nat :=
  bs.take n ++ List.replicate (n - bs.length) 0

/-- One `(ZAI, density)` pair of the encode loop (source lines 62–64):
`struct.pack('q', int(key))` then `struct.pack('d', value)`. Fails when
`int(key)` raises or the value is out of `q` range. -/
def packPair (kv : PyStr × Nat) : Option (List Nat) :=
  match pyIntParse kv.1 with
  | none => none
  | some z =>
    match encodeInt64 z with
    | none => none
    | some zb => some (zb ++ natTo8LE kv.2)

/-- The encode loop over the `nuclides` mapping in iteration order. -/
def packPairs : List (PyStr × Nat) → Option (List Nat)
  | [] => some []
  | kv :: t =>
    match packPair kv, packPairs t with
    | some b, some bt => some (b ++ bt)
    | _, _ => none

/-- `Material.to_binary` (source lines 51–65): length-prefixed name (the
length field is `len(self.name)`, the character count), then `bu_global`,
`bu_days`, the stored `nnuc` field, `adens`, `mdens`, `bu`, then the
nuclide pairs in mapping order. Returns `none` where the Python code would
raise (name not encodable, an integer out of `q` range, an unparsable
nuclide key). -/
def Material.to_binary (m : Material) : Option (List Nat) :=
  match encodeInt64 (m.name.length : Int), utf8Enc m.name,
      encodeInt64 m.nnuc, packPairs m.nuclides with
  | some lenB, some nb, some nnB, some pb =>
    some (lenB ++ packName m.name.length nb ++ natTo8LE m.bu_global ++ natTo8LE m.bu_days ++
      nnB ++ natTo8LE m.adens ++ natTo8LE m.mdens ++ natTo8LE m.bu ++ pb)
  | _, _, _, _ => none

/-- State of the grouping loop of `read_binary` (source lines 86–109),
carried in reverse order: the head of `bus` is `burnups[-1]` and the head
of `acc` is the current step's material mapping. The fuel argument bounds
the loop; every successful record read consumes at least the 8 header
bytes, so fuel `s.length + 1` always suffices and the fuel-exhausted
branch is unreachable from `read_binary`. -/
def read_binary_go (pfx : PyStr) :
    Nat → List Nat → List Nat → List (List (PyStr × Material)) →
    Except DecodeErr (List (List (PyStr × Material)))
  | 0, _, _, acc => .ok acc.reverse
  | f + 1, s, bus, acc =>
    match Material.read pfx s with
    | .eof => .ok acc.reverse
    | .err e => .error e
    | .ok m rest =>
      match bus, acc with
      | b :: _, cur :: prev =>
        if floatEqB m.bu_global b then
          read_binary_go pfx f rest bus (dictInsert cur m.name m :: prev)
        else
          read_binary_go pfx f rest (m.bu_global :: bus) ([] :: cur :: prev)
      | _, _ =>
        read_binary_go pfx f rest (m.bu_global :: bus) ([] :: acc)

/-- `read_binary(path, prefix)` (source lines 80–112) over the file's
bytes: repeatedly read materials, opening a new step whenever `burnups` is
empty or `mat.bu_global != burnups[-1]`, and otherwise inserting the
material into the current step's mapping (the step-opening branch of the
source stores nothing). The result lists the steps in order; step `i` of
the source's `snapshots[i]['materials']` is entry `i` here. A raised
exception aborts the whole read (`Except.error`). -/
def read_binary (pfx : PyStr) (s : List Nat) :
    Except DecodeErr (List (List (PyStr × Material))) :=
  read_binary_go pfx (s.length + 1) s [] []

/-- Modelled from the spec (section 4.2 Encode and section 6): the byte
layout the specification claims `to_binary` emits — byte-length-prefixed
UTF-8 name, `burnup_global`, `burnup_days`, the nuclide count recomputed
from the mapping, `atomic_density`, `mass_density`, `local_burnup`, then
the pairs. Used to compare the code's encoder against the claimed layout. -/
def specLayout (m : Material) : Option (List Nat) :=
  match utf8Enc m.name, encodeInt64 (m.nuclides.length : Int), packPairs m.nuclides with
  | some nb, some cntB, some pb =>
    match encodeInt64 (nb.length : Int) with
    | some lenB =>
      some (lenB ++ nb ++ natTo8LE m.bu_global ++ natTo8LE m.bu_days ++
        cntB ++ natTo8LE m.adens ++ natTo8LE m.mdens ++ natTo8LE m.bu ++ pb)
    | none => none
  | _, _, _ => none

/-- Bit pattern of the binary64 value `10.0`. -/
def pat10 : Nat := 4621819117588971520

/-- Bit pattern of the binary64 value `20.0`. -/
def pat20 : Nat := 4626322717216342016

/-- Convenience builder for a material with the given name, role and
`burnup_global` pattern, zero in every other float field and no nuclides. -/
def mkMat (name : PyStr) (par : Bool) (idv : Option Int) (buG : Nat) : Material :=
  ⟨name, par, idv, buG, 0, 0, 0, 0, 0, []⟩

/-- The bytes of an encoded material (defined for materials whose encoding
succeeds). -/
def binOf (m : Material) : List Nat := (Material.to_binary m).getD []

example :
    Material.read [102, 117, 101, 108]
      (binOf (mkMat [102, 117, 101, 108, 122, 49] false (some 1) pat10)) =
    .ok (mkMat [102, 117, 101, 108, 122, 49] false (some 1) pat10) [] := rfl

example : Material.read [102] [] = .eof := rfl

example : Material.read [102] [1, 2, 3] = .err .unexpectedEof := rfl

example : Material.read [102] (natTo8LE 5 ++ [65, 66]) = .err .truncatedRecord := rfl

example : Material.read [102] (natTo8LE 18446744073709551615 ++ [65, 66]) =
    .err .badLengthFormat := rfl

example : read_binary [102] [] = .ok [] := rfl

/-- Prefix `"fuel"`. -/
def fuelPfx : PyStr := [102, 117, 101, 108]

/-- The four records of the grouping example: sub-region names
`fuelz1` … `fuelz4` with `burnup_global` patterns `[10.0, 10.0, 20.0, 10.0]`. -/
def c1m1 : Material := mkMat [102, 117, 101, 108, 122, 49] false (some 1) pat10
def c1m2 : Material := mkMat [102, 117, 101, 108, 122, 50] false (some 2) pat10
def c1m3 : Material := mkMat [102, 117, 101, 108, 122, 51] false (some 3) pat20
def c1m4 : Material := mkMat [102, 117, 101, 108, 122, 52] false (some 4) pat10

/-- The concatenated stream of the four records. -/
def c1stream : List Nat := binOf c1m1 ++ binOf c1m2 ++ binOf c1m3 ++ binOf c1m4

set_option maxRecDepth 40000 in
example : (read_binary fuelPfx c1stream).map (fun l => l.map List.length) =
    .ok [1, 0, 0] := rfl

set_option maxRecDepth 40000 in
example : read_binary fuelPfx c1stream =
    .ok [[([102, 117, 101, 108, 122, 50], c1m2)], [], []] := rfl

theorem readN_exact (a b : List Nat) : readN (a.length : Int) (a ++ b) = (a, b) := by
  unfold readN
  rw [if_neg (by omega)]
  rw [Int.toNat_natCast]
  rw [List.take_left, List.drop_left]

theorem readN_exact8 (a b : List Nat) (h : a.length = 8) :
    readN 8 (a ++ b) = (a, b) := by
  have h8 : ((8 : Nat) : Int) = (8 : Int) := rfl
  rw [← h8, ← h, readN_exact]

/-- Claim C6: decoding an empty input stream succeeds with an empty step
collection; zero available bytes at a record boundary is the normal
end-of-stream signal (`read` returns `False`), not an error. -/
theorem c6_empty_stream (pfx : PyStr) :
    read_binary pfx [] = .ok [] ∧ Material.read pfx [] = .eof :=
  ⟨rfl, rfl⟩

/-- Claim C9: decoding is deterministic — the snapshot collection is a
function of the stream contents and the prefix alone, so two runs over
equal inputs agree structurally. -/
theorem c9_deterministic (p1 p2 : PyStr) (s1 s2 : List Nat)
    (hp : p1 = p2) (hs : s1 = s2) : read_binary p1 s1 = read_binary p2 s2 := by
  rw [hp, hs]

/-- Witness for C9 at a concrete input. -/
theorem c9_deterministic_witness :
    read_binary [102] [] = read_binary [102] [] :=
  c9_deterministic [102] [102] [] [] rfl rfl

/-- Claim C7: a stream that begins with a valid (non-negative) 8-byte
length prefix `n` followed by fewer than `n` bytes fails with
`truncatedRecord`; no incomplete material is returned. -/
theorem c7_truncated_name (pfx hdr rest : List Nat) (h8 : hdr.length = 8)
    (hnn : 0 ≤ decodeInt64 hdr)
    (hlt : rest.length < (decodeInt64 hdr).toNat) :
    Material.read pfx (hdr ++ rest) = .err .truncatedRecord := by
  unfold Material.read
  rw [readN_exact8 hdr rest h8]
  dsimp only
  rw [if_neg (by simp [← List.length_eq_zero, h8])]
  rw [if_neg (by simp [h8])]
  rw [if_neg (by omega)]
  rw [if_pos ?cnd]
  case cnd =>
    unfold readN
    rw [if_neg (by omega)]
    simp only [List.length_take]
    omega

/-- Witness for C7 at a concrete input: length prefix 5 followed by only
2 bytes. -/
theorem c7_truncated_name_witness :
    Material.read [102] (natTo8LE 5 ++ [65, 66]) = .err .truncatedRecord :=
  c7_truncated_name [102] (natTo8LE 5) [65, 66] rfl (by decide) (by decide)

/-- Claim C10: a stream whose 8-byte name-length field decodes to a
negative integer makes the record decode fail (the `struct` format
`"{n}s"` with negative `n` is rejected) before any material is built. -/
theorem c10_negative_length (pfx hdr rest : List Nat) (h8 : hdr.length = 8)
    (hneg : decodeInt64 hdr < 0) :
    Material.read pfx (hdr ++ rest) = .err .badLengthFormat := by
  unfold Material.read
  rw [readN_exact8 hdr rest h8]
  dsimp only
  rw [if_neg (by simp [← List.length_eq_zero, h8])]
  rw [if_neg (by simp [h8])]
  rw [if_pos hneg]

/-- Witness for C10 at a concrete input: the length field holds `-1`. -/
theorem c10_negative_length_witness :
    Material.read [102] (natTo8LE 18446744073709551615 ++ [65, 66]) =
      .err .badLengthFormat :=
  c10_negative_length [102] (natTo8LE 18446744073709551615) [65, 66] rfl (by decide)

/-- The name `"fz1fz2"`. -/
def c8name : PyStr := [102, 122, 49, 102, 122, 50]

/-- A well-formed record carrying the name `"fz1fz2"`. -/
def c8mat : Material := mkMat c8name false (some 1) 0

/-- Claim C8 counterexample: with prefix `"f"`, the name `"fz1fz2"` does
not equal the prefix and its suffix after the separator `"fz"` — the
characters `"1fz2"` — is not a valid integer, so the claim predicts a
`materialIdParseError`; but the code decodes the record successfully with
id 1, because `split(prefix + 'z')[1]` is only the segment up to the next
separator occurrence. -/
theorem c8_split_counterexample :
    Material.read [102] (binOf c8mat) = .ok c8mat [] ∧
    c8name ≠ [102] ∧
    pyIntParse [49, 102, 122, 50] = none :=
  ⟨rfl, by decide, by decide⟩

/-- Claim C8 (amended): an ASCII decoded name that neither equals the
prefix nor contains the separator `prefix + "z"`, or whose segment between
the first and the second occurrence of the separator (the whole suffix
when there is no second occurrence) is not a valid integer, fails record
decode with `materialIdParseError`. The hypothesis
`utf8Enc name = some name` says the name's UTF-8 bytes are its code points
— exactly the ASCII names, the fragment on which the `int()` model is
exact; Python's `int()` additionally accepts non-ASCII Unicode decimal
digits, so for a non-ASCII segment a model-level parse failure would not
imply a program-level one, and the claim is settled here for ASCII names
only. -/
theorem c8_id_parse_error (pfx name : PyStr) (rest : List Nat)
    (henc : utf8Enc name = some name)
    (hlen : name.length < 9223372036854775808)
    (hne : name ≠ pfx)
    (hseg : ((pySplit name (pfx ++ [122])).get? 1).all
      (fun seg => (pyIntParse seg).isNone) = true) :
    Material.read pfx (natTo8LE name.length ++ name ++ rest) =
      .err .materialIdParseError := by
  unfold Material.read
  rw [List.append_assoc, readN_exact8 _ _ (natTo8LE_length _)]
  dsimp only
  rw [if_neg (natTo8LE_ne_nil _)]
  rw [if_neg (by simp [natTo8LE_length])]
  rw [decodeInt64_natTo8LE _ hlen]
  rw [if_neg (by omega)]
  rw [readN_exact]
  rw [if_neg (by simp)]
  rw [utf8Dec_enc name name henc]
  have hrole : parseRole pfx name = none := by
    unfold parseRole
    rw [if_neg hne]
    cases hg : (pySplit name (pfx ++ [122])).get? 1 with
    | none => rfl
    | some seg =>
      rw [hg] at hseg
      simp only [Option.all] at hseg
      rw [Option.isNone_iff_eq_none] at hseg
      dsimp only
      rw [hseg]
  dsimp only
  rw [hrole]

/-- Witness for the amended C8 at a concrete input: prefix `"f"`, name
`"fzx"` (ASCII, separator present, segment `"x"` unparsable). -/
theorem c8_id_parse_error_witness :
    Material.read [102]
      (natTo8LE ([102, 122, 120] : PyStr).length ++ [102, 122, 120] ++ []) =
      .err .materialIdParseError :=
  c8_id_parse_error [102] [102, 122, 120] []
    (by decide) (by decide) (by decide) (by decide)

set_option maxRecDepth 40000 in
/-- Claim C1 (evaluation at the failing input): for the four-record stream
with `burnup_global` patterns `[10.0, 10.0, 20.0, 10.0]`, decode does
produce exactly 3 steps and does not merge the fourth record into the
first step, but the step sizes are `[1, 0, 0]`, not the claimed
`[2, 1, 1]`: the record that opens each step is never inserted into that
step's material mapping (only the `else` branch of the grouping stores the
material). -/
theorem c1_grouping_sizes :
    (read_binary fuelPfx c1stream).map (fun l => l.map List.length) =
      .ok [1, 0, 0] ∧
    ([1, 0, 0] : List Nat) ≠ [2, 1, 1] :=
  ⟨rfl, by decide⟩

/-- The prefix `"fuel20U"`. -/
def c2pfx : PyStr := [102, 117, 101, 108, 50, 48, 85]

/-- A single well-formed parent record: its name equals the prefix. -/
def c2mat : Material := mkMat c2pfx true none pat10

/-- The stream holding exactly that one record. -/
def c2stream : List Nat := binOf c2mat

set_option maxRecDepth 40000 in
/-- Claim C2 (evaluation at the failing input): a single record whose name
equals the prefix decodes at record level to a parent material
(`parent = true`, no id), but `read_binary` returns one step whose
material mapping is empty — the step-opening branch never stores the
material — where the claim requires the step to contain that material. -/
theorem c2_single_record :
    Material.read c2pfx c2stream = .ok c2mat [] ∧
    c2mat.parent = true ∧ c2mat.id = none ∧
    read_binary c2pfx c2stream = .ok [[]] :=
  ⟨rfl, rfl, rfl, rfl⟩

theorem packName_length (n : Nat) (bs : List Nat) : (packName n bs).length = n := by
  simp [packName, List.length_take]
  omega

theorem drop_append_len {α : Type} (a l : List α) (k : Nat) :
    (a ++ l).drop (a.length + k) = l.drop k := by
  induction a with
  | nil => simp
  | cons x t ih =>
    simp only [List.cons_append, List.length_cons, List.drop_succ_cons, Nat.succ_add]
    exact ih

theorem to_binary_shape (m : Material) (bs : List Nat)
    (h : Material.to_binary m = some bs) :
    ∃ lenB nb nnB pb,
      encodeInt64 (m.name.length : Int) = some lenB ∧
      utf8Enc m.name = some nb ∧
      encodeInt64 m.nnuc = some nnB ∧
      packPairs m.nuclides = some pb ∧
      bs = lenB ++ packName m.name.length nb ++ natTo8LE m.bu_global ++
        natTo8LE m.bu_days ++ nnB ++ natTo8LE m.adens ++ natTo8LE m.mdens ++
        natTo8LE m.bu ++ pb := by
  unfold Material.to_binary at h
  cases h1 : encodeInt64 (m.name.length : Int) with
  | none => rw [h1] at h; exact absurd h (by simp)
  | some lenB =>
    rw [h1] at h
    cases h2 : utf8Enc m.name with
    | none => rw [h2] at h; exact absurd h (by simp)
    | some nb =>
      rw [h2] at h
      cases h3 : encodeInt64 m.nnuc with
      | none => rw [h3] at h; exact absurd h (by simp)
      | some nnB =>
        rw [h3] at h
        cases h4 : packPairs m.nuclides with
        | none => rw [h4] at h; exact absurd h (by simp)
        | some pb =>
          rw [h4] at h
          injection h with h5
          exact ⟨lenB, nb, nnB, pb, rfl, rfl, rfl, rfl, h5.symm⟩

/-- The nuclide-count field of an encoded block: bytes 24 + name-length
through 31 + name-length. -/
theorem count_field_of_to_binary (m : Material) (bs : List Nat)
    (h : Material.to_binary m = some bs) :
    encodeInt64 m.nnuc = some ((bs.drop (24 + m.name.length)).take 8) := by
  obtain ⟨lenB, nb, nnB, pb, h1, h2, h3, h4, hbs⟩ := to_binary_shape m bs h
  subst hbs
  simp only [List.append_assoc]
  have e1 : (24 + m.name.length) = lenB.length + (m.name.length + 16) := by
    rw [encodeInt64_length _ _ h1]; omega
  rw [e1, drop_append_len]
  have e2 : (m.name.length + 16) = (packName m.name.length nb).length + 16 := by
    rw [packName_length]
  rw [e2, drop_append_len]
  have e3 : (16 : Nat) = (natTo8LE m.bu_global).length + 8 := by
    rw [natTo8LE_length]
  rw [e3, drop_append_len]
  rw [List.drop_left' (natTo8LE_length m.bu_days)]
  rw [List.take_left' (encodeInt64_length _ _ h3)]
  exact h3

/-- Claim C3 (amended): the encoder writes the stored `nnuc` attribute as
the count field — it does not recompute it from the mapping — so the count
field decodes to exactly the stored `nnuc`, which matches the mapping size
only while the caller keeps them in sync (as decode leaves them when no
duplicate ZAI collapses entries). -/
theorem c3_count_field_stored (m : Material) (bs : List Nat)
    (h : Material.to_binary m = some bs) :
    decodeInt64 ((bs.drop (24 + m.name.length)).take 8) = m.nnuc :=
  decodeInt64_encodeInt64 _ _ (count_field_of_to_binary m bs h)

/-- A material whose `nuclides` mapping gained an entry after decode: the
stored `nnuc` is 1, the mapping has 2 entries. -/
def c3mat : Material :=
  ⟨[102, 117, 101, 108, 122, 49], false, some 1, pat10, 0, 1, 0, 0, 0,
    [([49, 48, 48, 49, 48], pat10), ([56, 48, 49, 54, 48], pat20)]⟩

/-- Claim C3 counterexample: encoding `c3mat` succeeds and writes 1 — the
stored `nnuc` — into the count field, while the mapping size is 2, so the
encoded count does not equal the current size of the mapping. -/
theorem c3_count_counterexample :
    (Material.to_binary c3mat).map (fun bs => decodeInt64 ((bs.drop 30).take 8)) =
      some 1 ∧
    c3mat.nuclides.length = 2 ∧ (1 : Int) ≠ 2 :=
  ⟨rfl, rfl, by decide⟩

/-- Witness for the amended C3 at the concrete mutated material. -/
theorem c3_count_field_stored_witness :
    decodeInt64 (((binOf c3mat).drop (24 + c3mat.name.length)).take 8) = c3mat.nnuc :=
  c3_count_field_stored c3mat (binOf c3mat) rfl

/-- A well-formed nuclide entry: the key is the canonical decimal string of
an integer in signed 64-bit range (as `str(ZAI)` produces), and the density
pattern fits in 64 bits. -/
def nucEntryB (kv : PyStr × Nat) : Bool :=
  match pyIntParse kv.1 with
  | some z =>
    decide (kv.1 = pyStrOfInt z) && decide (-9223372036854775808 ≤ z) &&
    decide (z < 9223372036854775808) && decide (kv.2 < 18446744073709551616)
  | none => false

theorem packPair_of_entry (kv : PyStr × Nat) (h : nucEntryB kv = true) :
    ∃ z zb, pyIntParse kv.1 = some z ∧ encodeInt64 z = some zb ∧
      packPair kv = some (zb ++ natTo8LE kv.2) := by
  unfold nucEntryB at h
  cases hp : pyIntParse kv.1 with
  | none => rw [hp] at h; exact absurd h (by simp)
  | some z =>
    rw [hp] at h
    simp only [Bool.and_eq_true, decide_eq_true_eq] at h
    obtain ⟨⟨⟨hk, hlo⟩, hhi⟩, hd⟩ := h
    have hz : encodeInt64 z = some (natTo8LE ((z % 18446744073709551616).toNat)) := by
      cases z with
      | ofNat k =>
        simp only [Int.ofNat_eq_natCast] at hlo hhi
        simp only [encodeInt64]
        rw [if_pos (by omega : k < 9223372036854775808)]
        simp only [Int.ofNat_eq_natCast]
        exact congrArg (fun x => some (natTo8LE x)) (by omega)
      | negSucc k =>
        simp only [Int.negSucc_eq] at hlo hhi
        simp only [encodeInt64]
        rw [if_pos (by omega : k < 9223372036854775808)]
        simp only [Int.negSucc_eq]
        exact congrArg (fun x => some (natTo8LE x)) (by omega)
    refine ⟨z, natTo8LE ((z % 18446744073709551616).toNat), rfl, hz, ?_⟩
    unfold packPair
    rw [hp]
    show (match encodeInt64 z with
      | none => none
      | some zb => some (zb ++ natTo8LE kv.2)) = _
    rw [hz]

theorem packPairs_exists (l : List (PyStr × Nat)) (h : l.all nucEntryB = true) :
    ∃ pb, packPairs l = some pb := by
  induction l with
  | nil => exact ⟨[], rfl⟩
  | cons kv t ih =>
    simp only [List.all_cons, Bool.and_eq_true] at h
    obtain ⟨z, zb, _, _, hpp⟩ := packPair_of_entry kv h.1
    obtain ⟨pbt, hpbt⟩ := ih h.2
    refine ⟨zb ++ natTo8LE kv.2 ++ pbt, ?_⟩
    unfold packPairs
    rw [hpp, hpbt]

theorem packName_exact (bs : List Nat) : packName bs.length bs = bs := by
  simp [packName]

/-- Claim C5 (amended): for a well-formed material whose name's UTF-8
encoding is one byte per character (ASCII — the bytes coincide with the
code points) and whose stored `nnuc` equals the mapping size, encoding
never fails and emits exactly the claimed layout: 8-byte name length,
name bytes, `bu_global`, `bu_days`, count, `adens`, `mdens`, `bu`, then
one 16-byte pair per nuclide in mapping order, with no padding or
terminator. For names whose UTF-8 byte count differs from the character
count the emitted block deviates from this layout (see the
counterexample), because the code writes `len(self.name)` — the character
count — as the length field and truncates or pads the name bytes to it. -/
theorem c5_encode_layout (m : Material)
    (h1 : utf8Enc m.name = some m.name)
    (h2 : m.name.length < 9223372036854775808)
    (h3 : m.nnuc = (m.nuclides.length : Int))
    (h4 : m.nuclides.length < 9223372036854775808)
    (h5 : m.nuclides.all nucEntryB = true) :
    ∃ bs, Material.to_binary m = some bs ∧ specLayout m = some bs := by
  obtain ⟨pb, hpb⟩ := packPairs_exists _ h5
  have hlen : encodeInt64 (m.name.length : Int) = some (natTo8LE m.name.length) :=
    encodeInt64_of_nat _ h2
  have hnnB : encodeInt64 m.nnuc = some (natTo8LE m.nuclides.length) := by
    rw [h3]; exact encodeInt64_of_nat _ h4
  refine ⟨natTo8LE m.name.length ++ m.name ++ natTo8LE m.bu_global ++
    natTo8LE m.bu_days ++ natTo8LE m.nuclides.length ++ natTo8LE m.adens ++
    natTo8LE m.mdens ++ natTo8LE m.bu ++ pb, ?_, ?_⟩
  · unfold Material.to_binary
    rw [hlen, h1, hnnB, hpb]
    show some (natTo8LE m.name.length ++ packName m.name.length m.name ++
      natTo8LE m.bu_global ++ natTo8LE m.bu_days ++ natTo8LE m.nuclides.length ++
      natTo8LE m.adens ++ natTo8LE m.mdens ++ natTo8LE m.bu ++ pb) = _
    rw [packName_exact]
  · unfold specLayout
    rw [h1, show encodeInt64 (m.nuclides.length : Int) = some (natTo8LE m.nuclides.length)
      from encodeInt64_of_nat _ h4, hpb]
    show (match encodeInt64 (m.name.length : Int) with
      | some lenB =>
        some (lenB ++ m.name ++ natTo8LE m.bu_global ++ natTo8LE m.bu_days ++
          natTo8LE m.nuclides.length ++ natTo8LE m.adens ++ natTo8LE m.mdens ++
          natTo8LE m.bu ++ pb)
      | none => none) = _
    rw [hlen]

/-- The material named `"é"`: one character, two UTF-8 bytes. -/
def c5mat : Material := mkMat [233] true none 0

/-- Claim C5 counterexample: encoding the material named `"é"` succeeds
(encode indeed cannot fail here) but the emitted bytes are not the claimed
layout — the length field holds the character count 1 and only the first
UTF-8 byte survives the `"{n}s"` pack — so `to_binary` differs from the
spec-mandated byte sequence. -/
theorem c5_layout_counterexample :
    (Material.to_binary c5mat).isSome = true ∧
    Material.to_binary c5mat ≠ specLayout c5mat :=
  ⟨rfl, by decide⟩

/-- A well-formed sub-region material: name `"fz7"` under prefix `"f"`,
one nuclide `"922350"`. -/
def rtMat : Material :=
  ⟨[102, 122, 55], false, some 7, pat10, 0, 1, 0, 0, 0, [([57, 50, 50, 51, 53, 48], pat20)]⟩

/-- Witness for the amended C5 at the concrete material `rtMat`. -/
theorem c5_encode_layout_witness :
    ∃ bs, Material.to_binary rtMat = some bs ∧ specLayout rtMat = some bs :=
  c5_encode_layout rtMat (by decide) (by decide) (by decide) (by decide) (by decide)

theorem readF64_natTo8LE (x : Nat) (hx : x < 18446744073709551616) (r : List Nat) :
    readF64 (natTo8LE x ++ r) = some (x, r) := by
  unfold readF64
  rw [readN_exact8 _ _ (natTo8LE_length x)]
  dsimp only
  rw [if_pos (natTo8LE_length x)]
  rw [bytesToNat_natTo8LE, Nat.mod_eq_of_lt hx]

theorem readI64_enc (z : Int) (zb : List Nat) (hz : encodeInt64 z = some zb)
    (r : List Nat) : readI64 (zb ++ r) = some (z, r) := by
  unfold readI64
  rw [readN_exact8 _ _ (encodeInt64_length _ _ hz)]
  dsimp only
  rw [if_pos (encodeInt64_length _ _ hz)]
  rw [decodeInt64_encodeInt64 _ _ hz]

theorem readScalars_encoded (g d a md bu : Nat) (nn : Int) (nnB rest : List Nat)
    (hg : g < 18446744073709551616) (hd : d < 18446744073709551616)
    (ha : a < 18446744073709551616) (hmd : md < 18446744073709551616)
    (hbu : bu < 18446744073709551616)
    (hnn : encodeInt64 nn = some nnB) :
    readScalars (natTo8LE g ++ (natTo8LE d ++ (nnB ++ (natTo8LE a ++
      (natTo8LE md ++ (natTo8LE bu ++ rest)))))) = some ((g, d, nn, a, md, bu), rest) := by
  unfold readScalars
  rw [readF64_natTo8LE g hg]
  dsimp only
  rw [readF64_natTo8LE d hd]
  dsimp only
  rw [readI64_enc nn nnB hnn]
  dsimp only
  rw [readF64_natTo8LE a ha]
  dsimp only
  rw [readF64_natTo8LE md hmd]
  dsimp only
  rw [readF64_natTo8LE bu hbu]

theorem readN_exact16 (a b : List Nat) (h : a.length = 16) :
    readN 16 (a ++ b) = (a, b) := by
  have h16 : ((16 : Nat) : Int) = (16 : Int) := rfl
  rw [← h16, ← h, readN_exact]

theorem readPairs_packPairs (nucs : List (PyStr × Nat)) :
    ∀ (acc : List (PyStr × Nat)) (pb rest : List Nat),
    packPairs nucs = some pb →
    nucs.all nucEntryB = true →
    (∀ kv ∈ nucs, kv.1 ∉ acc.map Prod.fst) →
    (nucs.map Prod.fst).Nodup →
    readPairs nucs.length (pb ++ rest) acc = some (acc ++ nucs, rest) := by
  induction nucs with
  | nil =>
    intro acc pb rest hp _ _ _
    cases hp
    simp [readPairs]
  | cons kv t ih =>
    intro acc pb rest hp hall hdisj hnd
    obtain ⟨k, dv⟩ := kv
    simp only [List.all_cons, Bool.and_eq_true] at hall
    obtain ⟨z, zb, hpz, hez, hpp⟩ := packPair_of_entry (k, dv) hall.1
    have hcanon : k = pyStrOfInt z ∧ dv < 18446744073709551616 := by
      unfold nucEntryB at hall
      rw [hpz] at hall
      have h1 := hall.1
      simp only [Bool.and_eq_true, decide_eq_true_eq] at h1
      exact ⟨h1.1.1.1, h1.2⟩
    unfold packPairs at hp
    rw [hpp] at hp
    cases hpt : packPairs t with
    | none => rw [hpt] at hp; exact absurd hp (by simp)
    | some pbt =>
      rw [hpt] at hp
      injection hp with hpb
      subst hpb
      show readPairs (t.length + 1) ((zb ++ natTo8LE dv ++ pbt) ++ rest) acc = _
      unfold readPairs
      have hsplit : (zb ++ natTo8LE dv ++ pbt) ++ rest =
          (zb ++ natTo8LE dv) ++ (pbt ++ rest) := by
        simp [List.append_assoc]
      rw [hsplit]
      rw [readN_exact16 _ _ (by
        simp [List.length_append, encodeInt64_length _ _ hez, natTo8LE_length])]
      dsimp only
      rw [if_pos (by
        simp [List.length_append, encodeInt64_length _ _ hez, natTo8LE_length])]
      rw [List.take_left' (encodeInt64_length _ _ hez)]
      rw [List.drop_left' (encodeInt64_length _ _ hez)]
      rw [decodeInt64_encodeInt64 _ _ hez]
      rw [bytesToNat_natTo8LE, Nat.mod_eq_of_lt hcanon.2]
      rw [← hcanon.1]
      rw [dictInsert_notMem acc k dv (hdisj (k, dv) (by simp))]
      have hih := ih (acc ++ [(k, dv)]) pbt rest hpt hall.2 ?disj ?nodup
      case disj =>
        intro kv hkv
        simp only [List.map_append, List.mem_append, List.map_cons]
        push_neg
        constructor
        · exact hdisj kv (List.mem_cons_of_mem _ hkv)
        · simp only [List.map_nil, List.mem_singleton]
          intro hkk
          simp only [List.map_cons, List.nodup_cons] at hnd
          exact absurd (hkk ▸ (List.mem_map_of_mem Prod.fst hkv)) hnd.1
      case nodup =>
        simp only [List.map_cons, List.nodup_cons] at hnd
        exact hnd.2
      rw [hih]
      simp

/-- A valid in-memory material under a given prefix, in the sense of the
round-trip claim: the name parses back to the stored role, its UTF-8 bytes
coincide with its code points (one byte per character, the amended ASCII
condition), lengths are in `q` range, every float field is a finite 64-bit
pattern, the stored `nnuc` equals the mapping size, and the nuclide keys
are canonical decimal strings of distinct in-range integers with 64-bit
density patterns. -/
def validB (pfx : PyStr) (m : Material) : Bool :=
  decide (parseRole pfx m.name = some (m.parent, m.id)) &&
  decide (utf8Enc m.name = some m.name) &&
  decide (m.name.length < 9223372036854775808) &&
  decide (m.nnuc = (m.nuclides.length : Int)) &&
  decide (m.nuclides.length < 9223372036854775808) &&
  finite64 m.bu_global && finite64 m.bu_days && finite64 m.adens &&
  finite64 m.mdens && finite64 m.bu &&
  m.nuclides.all nucEntryB &&
  decide ((m.nuclides.map Prod.fst).Nodup)

/-- Claim C4 (amended): for every valid material — well-formed name
matching the parent/sub-region pattern whose UTF-8 byte count equals its
character count, finite field values, consistent nuclide mapping with
canonical distinct keys — decoding the bytes produced by encoding yields
the material back exactly (hence equal field-for-field, with the nuclide
mapping equal even as a sequence of (ZAI, density) pairs), consuming the
whole stream. Names whose UTF-8 encoding is longer than their character
count break the round trip (see the counterexample), because encode
writes the character count as the length field. -/
theorem c4_roundtrip (pfx : PyStr) (m : Material) (hv : validB pfx m = true) :
    ∃ bs, Material.to_binary m = some bs ∧ Material.read pfx bs = .ok m [] := by
  simp only [validB, Bool.and_eq_true, decide_eq_true_eq, finite64,
    Ne, decide_not, Bool.not_eq_true', decide_eq_false_iff_not] at hv
  obtain ⟨⟨⟨⟨⟨⟨⟨⟨⟨⟨⟨hrole, henc⟩, hlen⟩, hnn⟩, hcnt⟩, hg⟩, hd⟩, ha⟩, hmd⟩, hbu⟩, hall⟩, hnd⟩ := hv
  obtain ⟨pb, hpb⟩ := packPairs_exists _ hall
  have hlenB : encodeInt64 (m.name.length : Int) = some (natTo8LE m.name.length) :=
    encodeInt64_of_nat _ hlen
  have hnnB : encodeInt64 m.nnuc = some (natTo8LE m.nuclides.length) := by
    rw [hnn]; exact encodeInt64_of_nat _ hcnt
  refine ⟨natTo8LE m.name.length ++ (m.name ++ (natTo8LE m.bu_global ++
    (natTo8LE m.bu_days ++ (natTo8LE m.nuclides.length ++ (natTo8LE m.adens ++
    (natTo8LE m.mdens ++ (natTo8LE m.bu ++ pb))))))), ?enc, ?dec⟩
  case enc =>
    unfold Material.to_binary
    rw [hlenB, henc, hnnB, hpb]
    show some (natTo8LE m.name.length ++ packName m.name.length m.name ++
      natTo8LE m.bu_global ++ natTo8LE m.bu_days ++ natTo8LE m.nuclides.length ++
      natTo8LE m.adens ++ natTo8LE m.mdens ++ natTo8LE m.bu ++ pb) = _
    rw [packName_exact]
    simp [List.append_assoc]
  case dec =>
    unfold Material.read
    rw [readN_exact8 _ _ (natTo8LE_length _)]
    dsimp only
    rw [if_neg (natTo8LE_ne_nil _)]
    rw [if_neg (by simp [natTo8LE_length])]
    rw [decodeInt64_natTo8LE _ hlen]
    rw [if_neg (by omega)]
    rw [readN_exact]
    rw [if_neg (by simp)]
    rw [utf8Dec_enc m.name m.name henc]
    dsimp only
    rw [hrole]
    dsimp only
    rw [readScalars_encoded m.bu_global m.bu_days m.adens m.mdens m.bu m.nnuc
      (natTo8LE m.nuclides.length) pb hg.1 hd.1 ha.1 hmd.1 hbu.1 hnnB]
    dsimp only
    have htn : m.nnuc.toNat = m.nuclides.length := by rw [hnn]; simp
    rw [htn]
    rw [show pb = pb ++ [] from (List.append_nil pb).symm]
    rw [readPairs_packPairs m.nuclides [] pb [] hpb hall (by simp) hnd]
    dsimp only
    rw [List.nil_append]

/-- The prefix `"é"` (one non-ASCII character). -/
def c4pfx : PyStr := [233]

/-- A valid parent material named `"é"`: its name equals the prefix, its
mapping is consistent (both empty), every float field is finite zero. -/
def c4mat : Material := mkMat [233] true none 0

/-- Claim C4 counterexample: `c4mat` is a valid material in the claim's
sense — the name equals the prefix (parent pattern), fields are finite,
the mapping is consistent — yet decoding its encoding fails with an
encoding error instead of returning the material: the name length field
holds the character count 1, so only the first of the two UTF-8 bytes is
written and read back, which is not valid UTF-8. -/
theorem c4_roundtrip_counterexample :
    parseRole c4pfx c4mat.name = some (c4mat.parent, c4mat.id) ∧
    c4mat.nnuc = (c4mat.nuclides.length : Int) ∧
    Material.to_binary c4mat = some (binOf c4mat) ∧
    Material.read c4pfx (binOf c4mat) = .err .encodingError :=
  ⟨by decide, rfl, rfl, rfl⟩

/-- Witness for the amended C4 at the concrete material `rtMat` (name
`"fz7"` under prefix `"f"`, one nuclide). -/
theorem c4_roundtrip_witness :
    ∃ bs, Material.to_binary rtMat = some bs ∧
      Material.read [102] bs = .ok rtMat [] :=
  c4_roundtrip [102] rtMat (by decide)
